import Mathlib

/-!
Verification of the ILP graph-coloring encoder in `ilp_peterson.py`.

The script builds a mixed-integer program for graph coloring:
binary color-usage variables `w[0..n-1]`, a binary assignment grid
`x[i][k]` (vertex `i` gets color `k`), the objective `minimize Σ w[k]`,
one assignment constraint per vertex and one conflict constraint per
(color, edge) pair.  Solving is delegated to the external `mip` engine;
after solving, the script prints the objective value and all non-zero
variables, but only when the reported status is `OPTIMAL`.

We embed the encoder output as an explicit constraint list over a small
constraint AST, satisfaction of that list by a 0/1 valuation, and the
post-solve printing as a pure function of the solver status and the
variable values.  A second, Python-faithful layer works on `Int` edge
endpoints and models Python list indexing (negative indices, IndexError)
during constraint construction.
-/

/-- Numeric value of a binary variable: `true ↦ 1`, `false ↦ 0`. -/
def bval (b : Bool) : Nat := if b then 1 else 0

/-- The constraints emitted by `ilp_graph_coloring` (lines 29-35 of the
source): `assign i` is `Σ_k x[i][k] = 1`, `conflict k i j` is
`x[i][k] + x[j][k] ≤ w[k]`. -/
inductive Constr where
  | assign (i : Nat)
  | conflict (k i j : Nat)
deriving DecidableEq

/-- Satisfaction of one constraint by a 0/1 valuation of the variables
(`w` the color-usage variables, `x` the assignment grid). -/
def satisfies (n : Nat) (w : Nat → Bool) (x : Nat → Nat → Bool) : Constr → Bool
  | .assign i => ((List.range n).map (fun j => bval (x i j))).sum == 1
  | .conflict k i j => decide (bval (x i k) + bval (x j k) ≤ bval (w k))

/-- The constraint list built by `ilp_graph_coloring n edges`: one
assignment constraint per vertex `i ∈ range n` (source lines 29-30),
then one conflict constraint per color `k ∈ range n` and edge `(i, j)`
in the edge list, in that loop order (source lines 33-35). -/
def modelConstraints (n : Nat) (edges : List (Nat × Nat)) : List Constr :=
  (List.range n).map Constr.assign ++
    (List.range n).flatMap (fun k => edges.map (fun e => Constr.conflict k e.1 e.2))

/-- The objective `Σ_k w[k]` (source line 26) at a 0/1 valuation. -/
def objective (n : Nat) (w : Nat → Bool) : Nat :=
  ((List.range n).map (fun k => bval (w k))).sum

/-- A valuation is feasible for the encoded model when it satisfies
every constraint of `modelConstraints`. -/
def feasible (n : Nat) (edges : List (Nat × Nat)) (w : Nat → Bool)
    (x : Nat → Nat → Bool) : Bool :=
  (modelConstraints n edges).all (satisfies n w x)

/-- The color a solved assignment grid gives to vertex `i`: the first
`k < n` with `x[i][k]` set (for a feasible valuation there is exactly
one such `k`). -/
def decodeColor (n : Nat) (x : Nat → Nat → Bool) (i : Nat) : Option Nat :=
  ((List.range n).filter (fun k => x i k)).head?

/-- Number of distinct colors appearing in the decoded mapping. -/
def colorsUsed (n : Nat) (x : Nat → Nat → Bool) : Nat :=
  ((List.range n).filterMap (decodeColor n x)).toFinset.card

/-- Solver statuses the specification's solver port distinguishes. -/
inductive Status where
  | OPTIMAL
  | FEASIBLE
  | INFEASIBLE
  | UNBOUNDED
  | ERROR
deriving DecidableEq

/-- One line printed by the script: the objective-cost line or a
`name : value` line for a variable. -/
inductive OutLine where
  | cost (v : ℚ)
  | varLine (id : Nat) (v : ℚ)
deriving DecidableEq

/-- The post-solve behaviour of `ilp_graph_coloring` (source lines
41-45): when the status is `OPTIMAL`, print the objective value and
then every variable whose value is non-zero (`abs(v.x) > 0`), in
creation order; for any other status, print nothing and fall through. -/
def printResults (status : Status) (objectiveValue : ℚ)
    (vars : List (Nat × ℚ)) : List OutLine :=
  if status = Status.OPTIMAL then
    OutLine.cost objectiveValue ::
      (vars.filter (fun v => decide (0 < |v.2|))).map
        (fun v => OutLine.varLine v.1 v.2)
  else []

/-- The only exception the encoding phase can raise: an out-of-range
list index. -/
inductive PyErr where
  | indexError
deriving DecidableEq

/-- Python list indexing of a list of length `len`: index `i` with
`0 ≤ i < len` resolves to position `i`, a negative `i` with
`-len ≤ i` resolves to position `len + i`, anything else raises
`IndexError`. -/
def pyIndex (len : Nat) (i : Int) : Option Nat :=
  if 0 ≤ i ∧ i < (len : Int) then some i.toNat
  else if -(len : Int) ≤ i ∧ i < 0 then some ((len : Int) + i).toNat
  else none

/-- Building the conflict constraint for color `k` and edge `e` with
`Int` endpoints: Python evaluates `x[i][k]` then `x[j][k]`, so the
first endpoint outside `[-n, n)` raises `IndexError`. -/
def conflictFor (n : Nat) (k : Nat) (e : Int × Int) : Except PyErr Constr :=
  match pyIndex n e.1 with
  | none => .error .indexError
  | some i =>
    match pyIndex n e.2 with
    | none => .error .indexError
    | some j => .ok (.conflict k i j)

/-- The vertex position a Python index `i` denotes in a list of length
`n`: a non-negative `i` denotes position `i`, a negative `i` denotes
position `n + i`. -/
def pyNorm (n : Nat) (i : Int) : Nat :=
  if i < 0 then ((n : Int) + i).toNat else i.toNat

/-- The inner loop `for (i, j) in edges` at a fixed color `k`: emit the
conflict constraints in edge-list order, aborting at the first edge
whose endpoint raises `IndexError`. -/
def conflictRow (n k : Nat) : List (Int × Int) → Except PyErr (List Constr)
  | [] => Except.ok []
  | e :: es =>
    match conflictFor n k e with
    | Except.error err => Except.error err
    | Except.ok c =>
      match conflictRow n k es with
      | Except.error err => Except.error err
      | Except.ok cs => Except.ok (c :: cs)

/-- The outer loop `for k in range(n)` over the inner edge loop. -/
def conflictRows (n : Nat) (edges : List (Int × Int)) :
    List Nat → Except PyErr (List Constr)
  | [] => Except.ok []
  | k :: ks =>
    match conflictRow n k edges with
    | Except.error err => Except.error err
    | Except.ok cs =>
      match conflictRows n edges ks with
      | Except.error err => Except.error err
      | Except.ok rest => Except.ok (cs ++ rest)

/-- Python-faithful model construction of `ilp_graph_coloring`: the
assignment constraints index only within `range n` and never fail; the
conflict loop (`for k in range(n): for (i,j) in edges:`) resolves each
endpoint by Python list indexing and aborts with `IndexError` at the
first endpoint outside `[-n, n)`.  No input validation happens before
or during construction. -/
def buildModel (n : Nat) (edges : List (Int × Int)) : Except PyErr (List Constr) :=
  match conflictRows n edges (List.range n) with
  | Except.error err => Except.error err
  | Except.ok cs => Except.ok ((List.range n).map Constr.assign ++ cs)

/-- Vertex count of the Petersen instance at the bottom of the script. -/
def petersenN : Nat := 10

/-- The 15 edges of the Petersen graph exactly as listed in the script:
outer 5-cycle `0-1-2-3-4-0`, spokes `0-5,1-6,2-7,3-8,4-9`, inner star
`5-7,5-8,6-8,6-9,7-9`. -/
def petersenEdges : List (Nat × Nat) :=
  [(0, 1), (0, 4), (0, 5), (1, 2), (1, 6), (2, 3), (2, 7), (3, 4),
   (3, 8), (4, 9), (5, 7), (5, 8), (6, 8), (6, 9), (7, 9)]

/-- The optimal coloring reported in the script's output comment:
vertex `i` gets `colWit i`; colors 0, 1 and 8 are used. -/
def colWit : Nat → Nat
  | 0 => 8
  | 1 => 0
  | 2 => 8
  | 3 => 1
  | 4 => 0
  | 5 => 0
  | 6 => 1
  | 7 => 1
  | 8 => 8
  | _ => 8

/-- Color-usage variables of the reported optimal solution. -/
def wWit : Nat → Bool := fun k => k == 0 || k == 1 || k == 8

/-- Assignment grid of the reported optimal solution. -/
def xWit : Nat → Nat → Bool := fun i k => colWit i == k

/-! ## Basic lemmas about the encoded model -/

lemma sum_bval_map (f : Nat → Bool) (l : List Nat) :
    (l.map (fun j => bval (f j))).sum = (l.filter f).length := by
  induction l with
  | nil => rfl
  | cons a t ih =>
    rw [List.map_cons, List.sum_cons, List.filter_cons, ih]
    cases h : f a <;> simp [bval, h] <;> omega

lemma feasible_iff (n : Nat) (edges : List (Nat × Nat)) (w : Nat → Bool)
    (x : Nat → Nat → Bool) :
    feasible n edges w x = true ↔
      ((∀ i < n, ((List.range n).map (fun j => bval (x i j))).sum = 1) ∧
       ∀ k < n, ∀ e ∈ edges, bval (x e.1 k) + bval (x e.2 k) ≤ bval (w k)) := by
  unfold feasible modelConstraints
  rw [List.all_eq_true]
  constructor
  · intro h
    refine ⟨fun i hi => ?_, fun k hk e he => ?_⟩
    · have hmem : Constr.assign i ∈
          (List.range n).map Constr.assign ++
            (List.range n).flatMap
              (fun k => edges.map (fun e => Constr.conflict k e.1 e.2)) :=
        List.mem_append.2 (Or.inl (List.mem_map.2 ⟨i, List.mem_range.2 hi, rfl⟩))
      have := h _ hmem
      simpa [satisfies] using this
    · have hmem : Constr.conflict k e.1 e.2 ∈
          (List.range n).map Constr.assign ++
            (List.range n).flatMap
              (fun k => edges.map (fun e => Constr.conflict k e.1 e.2)) :=
        List.mem_append.2 (Or.inr (List.mem_flatMap.2
          ⟨k, List.mem_range.2 hk, List.mem_map.2 ⟨e, he, rfl⟩⟩))
      have := h _ hmem
      simpa [satisfies] using this
  · rintro ⟨h1, h2⟩ c hc
    rcases List.mem_append.1 hc with hc | hc
    · obtain ⟨i, hi, rfl⟩ := List.mem_map.1 hc
      simpa [satisfies] using h1 i (List.mem_range.1 hi)
    · obtain ⟨k, hk, hc⟩ := List.mem_flatMap.1 hc
      obtain ⟨e, he, rfl⟩ := List.mem_map.1 hc
      simpa [satisfies] using h2 k (List.mem_range.1 hk) e he

lemma assign_filter_length {n : Nat} {edges : List (Nat × Nat)}
    {w : Nat → Bool} {x : Nat → Nat → Bool}
    (hfeas : feasible n edges w x = true) {i : Nat} (hi : i < n) :
    ((List.range n).filter (fun k => x i k)).length = 1 := by
  have := ((feasible_iff n edges w x).1 hfeas).1 i hi
  rwa [sum_bval_map (fun j => x i j) (List.range n)] at this

lemma exists_color {n : Nat} {edges : List (Nat × Nat)}
    {w : Nat → Bool} {x : Nat → Nat → Bool}
    (hfeas : feasible n edges w x = true) {i : Nat} (hi : i < n) :
    ∃ c, (List.range n).filter (fun k => x i k) = [c] :=
  List.length_eq_one.1 (assign_filter_length hfeas hi)

lemma decodeColor_eq {n : Nat} {x : Nat → Nat → Bool} {i c : Nat}
    (h : (List.range n).filter (fun k => x i k) = [c]) :
    decodeColor n x i = some c := by
  unfold decodeColor
  rw [h]
  rfl

lemma color_mem {n : Nat} {x : Nat → Nat → Bool} {i c : Nat}
    (h : (List.range n).filter (fun k => x i k) = [c]) :
    c < n ∧ x i c = true := by
  have hc : c ∈ (List.range n).filter (fun k => x i k) := by
    rw [h]; exact List.mem_singleton.2 rfl
  have := List.mem_filter.1 hc
  exact ⟨List.mem_range.1 this.1, this.2⟩

lemma color_unique {n : Nat} {x : Nat → Nat → Bool} {i c k : Nat}
    (h : (List.range n).filter (fun k => x i k) = [c])
    (hk : k < n) (hxk : x i k = true) : k = c := by
  have : k ∈ (List.range n).filter (fun j => x i j) :=
    List.mem_filter.2 ⟨List.mem_range.2 hk, hxk⟩
  rw [h] at this
  exact List.mem_singleton.1 this

lemma conflict_le {n : Nat} {edges : List (Nat × Nat)}
    {w : Nat → Bool} {x : Nat → Nat → Bool}
    (hfeas : feasible n edges w x = true) {k i j : Nat}
    (hk : k < n) (he : (i, j) ∈ edges) :
    bval (x i k) + bval (x j k) ≤ bval (w k) :=
  ((feasible_iff n edges w x).1 hfeas).2 k hk (i, j) he

lemma not_both {n : Nat} {edges : List (Nat × Nat)}
    {w : Nat → Bool} {x : Nat → Nat → Bool}
    (hfeas : feasible n edges w x = true) {k i j : Nat}
    (hk : k < n) (he : (i, j) ∈ edges) :
    ¬(x i k = true ∧ x j k = true) := by
  rintro ⟨h1, h2⟩
  have := conflict_le hfeas hk he
  rw [h1, h2] at this
  cases hw : w k <;> rw [hw] at this <;> simp [bval] at this

lemma w_forced {n : Nat} {edges : List (Nat × Nat)}
    {w : Nat → Bool} {x : Nat → Nat → Bool}
    (hfeas : feasible n edges w x = true) {k i j : Nat}
    (hk : k < n) (he : (i, j) ∈ edges)
    (hx : x i k = true ∨ x j k = true) : w k = true := by
  have hle := conflict_le hfeas hk he
  cases hw : w k
  · rw [hw] at hle
    rcases hx with hx | hx <;> rw [hx] at hle <;> simp [bval] at hle
  · rfl

lemma selfloop_not_feasible (n : Nat) (edges : List (Nat × Nat))
    (w : Nat → Bool) (x : Nat → Nat → Bool) (i : Nat)
    (hi : i < n) (hmem : (i, i) ∈ edges) :
    feasible n edges w x = false := by
  cases hfeas : feasible n edges w x
  · rfl
  · exfalso
    obtain ⟨c, hc⟩ := exists_color hfeas hi
    obtain ⟨hcn, hxc⟩ := color_mem hc
    exact not_both hfeas hcn hmem ⟨hxc, hxc⟩

lemma decode_ne {n : Nat} {edges : List (Nat × Nat)}
    {w : Nat → Bool} {x : Nat → Nat → Bool}
    (hfeas : feasible n edges w x = true) {i j : Nat}
    (he : (i, j) ∈ edges) (hi : i < n) (hj : j < n) :
    decodeColor n x i ≠ decodeColor n x j := by
  by_cases hij : i = j
  · subst hij
    rw [selfloop_not_feasible n edges w x i hi he] at hfeas
    exact absurd hfeas (by simp)
  · obtain ⟨ci, hci⟩ := exists_color hfeas hi
    obtain ⟨cj, hcj⟩ := exists_color hfeas hj
    rw [decodeColor_eq hci, decodeColor_eq hcj]
    intro hcc
    have hcij : ci = cj := Option.some.inj hcc
    refine not_both hfeas (color_mem hci).1 he ⟨(color_mem hci).2, ?_⟩
    rw [hcij] at hci ⊢
    exact (color_mem hcj).2

lemma objective_filter (n : Nat) (w : Nat → Bool) :
    objective n w = ((List.range n).filter w).length := by
  unfold objective
  exact sum_bval_map w (List.range n)

/-! ## The Petersen instance needs at least three colors -/

lemma three_le_card_of_cycle5 (T : Finset Nat) (c0 c1 c2 c3 c4 : Nat)
    (h0 : c0 ∈ T) (h1 : c1 ∈ T) (h2 : c2 ∈ T) (h3 : c3 ∈ T) (h4 : c4 ∈ T)
    (n01 : c0 ≠ c1) (n12 : c1 ≠ c2) (n23 : c2 ≠ c3) (n34 : c3 ≠ c4)
    (n04 : c0 ≠ c4) : 3 ≤ T.card := by
  by_contra hlt
  push_neg at hlt
  have hsub : ({c0, c1} : Finset Nat) ⊆ T := by
    intro a ha
    rcases Finset.mem_insert.1 ha with ha | ha
    · exact ha ▸ h0
    · exact (Finset.mem_singleton.1 ha) ▸ h1
  have hcard : ({c0, c1} : Finset Nat).card = 2 := Finset.card_pair n01
  have hTeq : ({c0, c1} : Finset Nat) = T :=
    Finset.eq_of_subset_of_card_le hsub (by omega)
  rw [← hTeq] at h2 h3 h4
  simp only [Finset.mem_insert, Finset.mem_singleton] at h2 h3 h4
  rcases h2 with h2 | h2 <;> rcases h3 with h3 | h3 <;>
    rcases h4 with h4 | h4 <;> omega

lemma petersen_vertex_lt {i j : Nat} (he : (i, j) ∈ petersenEdges) :
    i < 10 ∧ j < 10 ∧ i ≠ j := by
  fin_cases he <;> simp

lemma petersen_incident : ∀ i < 10, ∃ e ∈ petersenEdges, i = e.1 ∨ i = e.2 := by
  decide

lemma petersen_lower {w : Nat → Bool} {x : Nat → Nat → Bool}
    (hfeas : feasible 10 petersenEdges w x = true) : 3 ≤ objective 10 w := by
  obtain ⟨c0, hc0⟩ := exists_color hfeas (show 0 < 10 by omega)
  obtain ⟨c1, hc1⟩ := exists_color hfeas (show 1 < 10 by omega)
  obtain ⟨c2, hc2⟩ := exists_color hfeas (show 2 < 10 by omega)
  obtain ⟨c3, hc3⟩ := exists_color hfeas (show 3 < 10 by omega)
  obtain ⟨c4, hc4⟩ := exists_color hfeas (show 4 < 10 by omega)
  have m01 : ((0 : Nat), (1 : Nat)) ∈ petersenEdges := by decide
  have m12 : ((1 : Nat), (2 : Nat)) ∈ petersenEdges := by decide
  have m23 : ((2 : Nat), (3 : Nat)) ∈ petersenEdges := by decide
  have m34 : ((3 : Nat), (4 : Nat)) ∈ petersenEdges := by decide
  have m04 : ((0 : Nat), (4 : Nat)) ∈ petersenEdges := by decide
  have w0 : w c0 = true :=
    w_forced hfeas (color_mem hc0).1 m01 (Or.inl (color_mem hc0).2)
  have w1 : w c1 = true :=
    w_forced hfeas (color_mem hc1).1 m01 (Or.inr (color_mem hc1).2)
  have w2 : w c2 = true :=
    w_forced hfeas (color_mem hc2).1 m12 (Or.inr (color_mem hc2).2)
  have w3 : w c3 = true :=
    w_forced hfeas (color_mem hc3).1 m23 (Or.inr (color_mem hc3).2)
  have w4 : w c4 = true :=
    w_forced hfeas (color_mem hc4).1 m04 (Or.inr (color_mem hc4).2)
  have hne : ∀ {a b ca cb : Nat},
      (a, b) ∈ petersenEdges →
      (List.range 10).filter (fun k => x a k) = [ca] →
      (List.range 10).filter (fun k => x b k) = [cb] → ca ≠ cb := by
    intro a b ca cb hab hfa hfb heq
    refine not_both hfeas (color_mem hfa).1 hab ⟨(color_mem hfa).2, ?_⟩
    rw [heq]
    exact (color_mem hfb).2
  have n01 := hne m01 hc0 hc1
  have n12 := hne m12 hc1 hc2
  have n23 := hne m23 hc2 hc3
  have n34 := hne m34 hc3 hc4
  have n04 := hne m04 hc0 hc4
  have hnodup : ((List.range 10).filter w).Nodup := List.Nodup.filter _ (List.nodup_range 10)
  have hcardlen : ((List.range 10).filter w).toFinset.card =
      ((List.range 10).filter w).length := List.toFinset_card_of_nodup hnodup
  have hmemT : ∀ {c : Nat}, c < 10 → w c = true →
      c ∈ ((List.range 10).filter w).toFinset := by
    intro c hc hw
    exact List.mem_toFinset.2 (List.mem_filter.2 ⟨List.mem_range.2 hc, hw⟩)
  have h3le := three_le_card_of_cycle5 ((List.range 10).filter w).toFinset
    c0 c1 c2 c3 c4
    (hmemT (color_mem hc0).1 w0) (hmemT (color_mem hc1).1 w1)
    (hmemT (color_mem hc2).1 w2) (hmemT (color_mem hc3).1 w3)
    (hmemT (color_mem hc4).1 w4) n01 n12 n23 n34 n04
  rw [objective_filter]
  omega

lemma petersen_colorsUsed {w : Nat → Bool} {x : Nat → Nat → Bool}
    (hfeas : feasible 10 petersenEdges w x = true)
    (hobj : objective 10 w = 3) : colorsUsed 10 x = 3 := by
  have hused_mem : ∀ {i c : Nat}, i < 10 →
      (List.range 10).filter (fun k => x i k) = [c] →
      c ∈ ((List.range 10).filterMap (decodeColor 10 x)).toFinset := by
    intro i c hi hf
    exact List.mem_toFinset.2 (List.mem_filterMap.2
      ⟨i, List.mem_range.2 hi, decodeColor_eq hf⟩)
  -- every used color is charged to the objective, because every Petersen
  -- vertex is incident to an edge
  have hsub : ((List.range 10).filterMap (decodeColor 10 x)).toFinset ⊆
      ((List.range 10).filter w).toFinset := by
    intro c hc
    obtain ⟨i, hi, hdec⟩ := List.mem_filterMap.1 (List.mem_toFinset.1 hc)
    have hi10 : i < 10 := List.mem_range.1 hi
    obtain ⟨ci, hfi⟩ := exists_color hfeas hi10
    rw [decodeColor_eq hfi] at hdec
    have hcc : ci = c := Option.some.inj hdec
    subst hcc
    obtain ⟨e, he, hie⟩ := petersen_incident i hi10
    have hw : w ci = true := by
      rcases hie with hie | hie
      · exact w_forced hfeas (color_mem hfi).1 (show (e.1, e.2) ∈ petersenEdges by
          simpa using he) (Or.inl (hie ▸ (color_mem hfi).2))
      · exact w_forced hfeas (color_mem hfi).1 (show (e.1, e.2) ∈ petersenEdges by
          simpa using he) (Or.inr (hie ▸ (color_mem hfi).2))
    exact List.mem_toFinset.2
      (List.mem_filter.2 ⟨List.mem_range.2 (color_mem hfi).1, hw⟩)
  have hnodup : ((List.range 10).filter w).Nodup := List.Nodup.filter _ (List.nodup_range 10)
  have hcardlen : ((List.range 10).filter w).toFinset.card =
      ((List.range 10).filter w).length := List.toFinset_card_of_nodup hnodup
  have hle : colorsUsed 10 x ≤ 3 := by
    have := Finset.card_le_card hsub
    unfold colorsUsed
    rw [objective_filter] at hobj
    omega
  obtain ⟨c0, hc0⟩ := exists_color hfeas (show 0 < 10 by omega)
  obtain ⟨c1, hc1⟩ := exists_color hfeas (show 1 < 10 by omega)
  obtain ⟨c2, hc2⟩ := exists_color hfeas (show 2 < 10 by omega)
  obtain ⟨c3, hc3⟩ := exists_color hfeas (show 3 < 10 by omega)
  obtain ⟨c4, hc4⟩ := exists_color hfeas (show 4 < 10 by omega)
  have m01 : ((0 : Nat), (1 : Nat)) ∈ petersenEdges := by decide
  have m12 : ((1 : Nat), (2 : Nat)) ∈ petersenEdges := by decide
  have m23 : ((2 : Nat), (3 : Nat)) ∈ petersenEdges := by decide
  have m34 : ((3 : Nat), (4 : Nat)) ∈ petersenEdges := by decide
  have m04 : ((0 : Nat), (4 : Nat)) ∈ petersenEdges := by decide
  have hne : ∀ {a b ca cb : Nat},
      (a, b) ∈ petersenEdges →
      (List.range 10).filter (fun k => x a k) = [ca] →
      (List.range 10).filter (fun k => x b k) = [cb] → ca ≠ cb := by
    intro a b ca cb hab hfa hfb heq
    refine not_both hfeas (color_mem hfa).1 hab ⟨(color_mem hfa).2, ?_⟩
    rw [heq]
    exact (color_mem hfb).2
  have h3le := three_le_card_of_cycle5
    ((List.range 10).filterMap (decodeColor 10 x)).toFinset
    c0 c1 c2 c3 c4
    (hused_mem (show 0 < 10 by omega) hc0) (hused_mem (show 1 < 10 by omega) hc1)
    (hused_mem (show 2 < 10 by omega) hc2) (hused_mem (show 3 < 10 by omega) hc3)
    (hused_mem (show 4 < 10 by omega) hc4)
    (hne m01 hc0 hc1) (hne m12 hc1 hc2) (hne m23 hc2 hc3)
    (hne m34 hc3 hc4) (hne m04 hc0 hc4)
  unfold colorsUsed at hle ⊢
  omega

/-! ## Lemmas about the Python-faithful construction layer -/

lemma pyErr_eq (err : PyErr) : err = PyErr.indexError := by
  cases err
  rfl

lemma pyIndex_isSome_iff (n : Nat) (i : Int) :
    (pyIndex n i).isSome = true ↔ (-(n : Int) ≤ i ∧ i < (n : Int)) := by
  unfold pyIndex
  split_ifs with h1 h2 <;> simp <;> omega

lemma pyIndex_eq_some (n : Nat) (i : Int)
    (h1 : -(n : Int) ≤ i) (h2 : i < (n : Int)) :
    pyIndex n i = some (pyNorm n i) := by
  unfold pyIndex pyNorm
  by_cases hneg : i < 0
  · rw [if_neg (by omega), if_pos ⟨h1, hneg⟩, if_pos hneg]
  · rw [if_pos ⟨by omega, h2⟩, if_neg hneg]

lemma conflictFor_ok_iff (n k : Nat) (e : Int × Int) :
    (∃ c, conflictFor n k e = Except.ok c) ↔
      ((pyIndex n e.1).isSome = true ∧ (pyIndex n e.2).isSome = true) := by
  unfold conflictFor
  cases h1 : pyIndex n e.1 <;> cases h2 : pyIndex n e.2 <;> simp

lemma conflictFor_eq (n k : Nat) (e : Int × Int)
    (h1 : -(n : Int) ≤ e.1 ∧ e.1 < (n : Int))
    (h2 : -(n : Int) ≤ e.2 ∧ e.2 < (n : Int)) :
    conflictFor n k e = Except.ok (Constr.conflict k (pyNorm n e.1) (pyNorm n e.2)) := by
  unfold conflictFor
  rw [pyIndex_eq_some n e.1 h1.1 h1.2, pyIndex_eq_some n e.2 h2.1 h2.2]

lemma conflictRow_ok_iff (n k : Nat) (es : List (Int × Int)) :
    (∃ cs, conflictRow n k es = Except.ok cs) ↔
      ∀ e ∈ es, (pyIndex n e.1).isSome = true ∧ (pyIndex n e.2).isSome = true := by
  induction es with
  | nil => simp [conflictRow]
  | cons e es ih =>
    constructor
    · rintro ⟨cs, hcs⟩
      unfold conflictRow at hcs
      cases hfor : conflictFor n k e with
      | error err => rw [hfor] at hcs; exact absurd hcs (by simp)
      | ok c =>
        rw [hfor] at hcs
        cases hrow : conflictRow n k es with
        | error err => rw [hrow] at hcs; exact absurd hcs (by simp)
        | ok cs' =>
          intro a ha
          rcases List.mem_cons.1 ha with rfl | ha
          · exact (conflictFor_ok_iff n k a).1 ⟨c, hfor⟩
          · exact (ih.1 ⟨cs', hrow⟩) a ha
    · intro h
      obtain ⟨c, hc⟩ := (conflictFor_ok_iff n k e).2 (h e (List.mem_cons_self e es))
      obtain ⟨cs, hcs⟩ := ih.2 (fun a ha => h a (List.mem_cons_of_mem e ha))
      exact ⟨c :: cs, by unfold conflictRow; rw [hc, hcs]⟩

lemma conflictRows_ok_iff (n : Nat) (es : List (Int × Int)) (ks : List Nat) :
    (∃ cs, conflictRows n es ks = Except.ok cs) ↔
      ∀ k ∈ ks, ∃ cs, conflictRow n k es = Except.ok cs := by
  induction ks with
  | nil => simp [conflictRows]
  | cons k ks ih =>
    constructor
    · rintro ⟨cs, hcs⟩
      unfold conflictRows at hcs
      cases hrow : conflictRow n k es with
      | error err => rw [hrow] at hcs; exact absurd hcs (by simp)
      | ok c =>
        rw [hrow] at hcs
        cases hrest : conflictRows n es ks with
        | error err => rw [hrest] at hcs; exact absurd hcs (by simp)
        | ok rest =>
          intro a ha
          rcases List.mem_cons.1 ha with rfl | ha
          · exact ⟨c, hrow⟩
          · exact (ih.1 ⟨rest, hrest⟩) a ha
    · intro h
      obtain ⟨c, hc⟩ := h k (List.mem_cons_self k ks)
      obtain ⟨cs, hcs⟩ := ih.2 (fun a ha => h a (List.mem_cons_of_mem k ha))
      exact ⟨c ++ cs, by unfold conflictRows; rw [hc, hcs]⟩

lemma buildModel_ok_iff (n : Nat) (es : List (Int × Int)) :
    (∃ cs, buildModel n es = Except.ok cs) ↔
      (n = 0 ∨ ∀ e ∈ es,
        (pyIndex n e.1).isSome = true ∧ (pyIndex n e.2).isSome = true) := by
  have hrows : (∃ cs, conflictRows n es (List.range n) = Except.ok cs) ↔
      (n = 0 ∨ ∀ e ∈ es,
        (pyIndex n e.1).isSome = true ∧ (pyIndex n e.2).isSome = true) := by
    rw [conflictRows_ok_iff]
    constructor
    · intro h
      rcases Nat.eq_zero_or_pos n with hn | hn
      · exact Or.inl hn
      · exact Or.inr ((conflictRow_ok_iff n 0 es).1 (h 0 (List.mem_range.2 hn)))
    · intro h k _
      rcases h with rfl | h
      · exact absurd (List.mem_range.1 (by assumption)) (by omega)
      · exact (conflictRow_ok_iff n k es).2 h
  constructor
  · rintro ⟨cs, hcs⟩
    unfold buildModel at hcs
    cases hr : conflictRows n es (List.range n) with
    | error err => rw [hr] at hcs; exact absurd hcs (by simp)
    | ok c => exact hrows.1 ⟨c, hr⟩
  · intro h
    obtain ⟨c, hc⟩ := hrows.2 h
    exact ⟨_, by unfold buildModel; rw [hc]⟩

lemma buildModel_not_ok (n : Nat) (es : List (Int × Int))
    (h : ¬∃ cs, buildModel n es = Except.ok cs) :
    buildModel n es = Except.error PyErr.indexError := by
  cases hb : buildModel n es with
  | error err => rw [pyErr_eq err]
  | ok cs => exact absurd ⟨cs, hb⟩ h

lemma conflictRow_map (n k : Nat) (es : List (Int × Int))
    (hall : ∀ e ∈ es, (-(n : Int) ≤ e.1 ∧ e.1 < (n : Int)) ∧
      (-(n : Int) ≤ e.2 ∧ e.2 < (n : Int))) :
    conflictRow n k es =
      Except.ok (es.map (fun e => Constr.conflict k (pyNorm n e.1) (pyNorm n e.2))) := by
  induction es with
  | nil => rfl
  | cons e es ih =>
    unfold conflictRow
    rw [conflictFor_eq n k e (hall e (List.mem_cons_self e es)).1
      (hall e (List.mem_cons_self e es)).2]
    rw [ih (fun a ha => hall a (List.mem_cons_of_mem e ha))]
    rfl

lemma conflictRows_flat (n : Nat) (es : List (Int × Int))
    (hall : ∀ e ∈ es, (-(n : Int) ≤ e.1 ∧ e.1 < (n : Int)) ∧
      (-(n : Int) ≤ e.2 ∧ e.2 < (n : Int))) (ks : List Nat) :
    conflictRows n es ks =
      Except.ok (ks.flatMap (fun k =>
        es.map (fun e => Constr.conflict k (pyNorm n e.1) (pyNorm n e.2)))) := by
  induction ks with
  | nil => rfl
  | cons k ks ih =>
    unfold conflictRows
    rw [conflictRow_map n k es hall, ih]
    rfl

lemma buildModel_eq (n : Nat) (es : List (Int × Int))
    (hall : ∀ e ∈ es, (-(n : Int) ≤ e.1 ∧ e.1 < (n : Int)) ∧
      (-(n : Int) ≤ e.2 ∧ e.2 < (n : Int))) :
    buildModel n es =
      Except.ok (modelConstraints n
        (es.map (fun e => (pyNorm n e.1, pyNorm n e.2)))) := by
  unfold buildModel
  rw [conflictRows_flat n es hall (List.range n)]
  unfold modelConstraints
  have hmm : ((List.range n).flatMap fun k =>
      List.map (fun e => Constr.conflict k (pyNorm n e.1) (pyNorm n e.2)) es) =
      ((List.range n).flatMap fun k =>
        List.map (fun e => Constr.conflict k e.1 e.2)
          (List.map (fun e => (pyNorm n e.1, pyNorm n e.2)) es)) := by
    congr 1
    funext k
    simp [List.map_map, Function.comp_def]
  rw [hmm]

/-! ## The diagonal solution and generic bounds -/

lemma filter_beq_range (n i : Nat) (hi : i < n) :
    (List.range n).filter (fun k => i == k) = [i] := by
  induction n with
  | zero => omega
  | succ m ih =>
    rw [List.range_succ, List.filter_append]
    by_cases him : i < m
    · rw [ih him]
      have hm : List.filter (fun k => i == k) [m] = [] := by
        simp
        omega
      rw [hm, List.append_nil]
    · have him' : i = m := by omega
      subst him'
      have h1 : List.filter (fun k => i == k) (List.range i) = [] := by
        rw [List.filter_eq_nil_iff]
        intro a ha
        simp
        exact Nat.ne_of_gt (List.mem_range.1 ha)
      rw [h1]
      simp

lemma diag_assign (n i : Nat) (hi : i < n) :
    ((List.range n).map (fun j => bval ((fun a k => a == k) i j))).sum = 1 := by
  rw [sum_bval_map (fun j => i == j) (List.range n), filter_beq_range n i hi]
  rfl

lemma decode_diag (n i : Nat) (hi : i < n) :
    decodeColor n (fun a k => a == k) i = some i := by
  unfold decodeColor
  rw [filter_beq_range n i hi]
  rfl

lemma colorsUsed_le (n : Nat) (x : Nat → Nat → Bool) : colorsUsed n x ≤ n := by
  unfold colorsUsed
  have hsub : ((List.range n).filterMap (decodeColor n x)).toFinset ⊆
      Finset.range n := by
    intro c hc
    obtain ⟨i, _, hdec⟩ := List.mem_filterMap.1 (List.mem_toFinset.1 hc)
    have hc' : c ∈ (List.range n).filter (fun k => x i k) := by
      apply List.mem_of_mem_head?
      unfold decodeColor at hdec
      rw [hdec]
      rfl
    exact Finset.mem_range.2 (List.mem_range.1 (List.mem_filter.1 hc').1)
  calc ((List.range n).filterMap (decodeColor n x)).toFinset.card
      ≤ (Finset.range n).card := Finset.card_le_card hsub
    _ = n := Finset.card_range n

lemma colorsUsed_diag (n : Nat) : colorsUsed n (fun a k => a == k) = n := by
  unfold colorsUsed
  have heq : ((List.range n).filterMap (decodeColor n (fun a k => a == k))).toFinset =
      Finset.range n := by
    apply Finset.Subset.antisymm
    · intro c hc
      obtain ⟨i, _, hdec⟩ := List.mem_filterMap.1 (List.mem_toFinset.1 hc)
      have hc' : c ∈ (List.range n).filter (fun k => i == k) := by
        apply List.mem_of_mem_head?
        unfold decodeColor at hdec
        rw [hdec]
        rfl
      exact Finset.mem_range.2 (List.mem_range.1 (List.mem_filter.1 hc').1)
    · intro i hi
      have hi' : i < n := Finset.mem_range.1 hi
      exact List.mem_toFinset.2 (List.mem_filterMap.2
        ⟨i, List.mem_range.2 hi', decode_diag n i hi'⟩)
  rw [heq, Finset.card_range]

lemma diag_feasible (n : Nat) (edges : List (Nat × Nat))
    (hloop : ∀ e ∈ edges, e.1 ≠ e.2) (w : Nat → Bool)
    (hw : ∀ e ∈ edges, ∀ k < n, (e.1 = k ∨ e.2 = k) → w k = true) :
    feasible n edges w (fun a k => a == k) = true := by
  rw [feasible_iff]
  refine ⟨fun i hi => diag_assign n i hi, fun k hk e he => ?_⟩
  by_cases h1 : e.1 = k
  · have hwk : w k = true := hw e he k hk (Or.inl h1)
    have h2 : (e.2 == k) = false := by
      simp
      rw [← h1]
      exact (hloop e he).symm
    rw [hwk, h2]
    simp [bval, h1]
  · by_cases h2 : e.2 = k
    · have hwk : w k = true := hw e he k hk (Or.inr h2)
      have h1' : (e.1 == k) = false := by simp [h1]
      rw [hwk, h1']
      simp [bval, h2]
    · have h1' : (e.1 == k) = false := by simp [h1]
      have h2' : (e.2 == k) = false := by simp [h2]
      rw [h1', h2']
      simp [bval]

lemma pyNorm_natCast (n m : Nat) : pyNorm n (m : Int) = m := by
  unfold pyNorm
  rw [if_neg (by omega)]
  omega

/-! ## Claim theorems -/

/-- C1: the encoder adds, for every edge `(i, j)` in the edge list and
every color `k ∈ [0, n)`, the conflict constraint
`x[i][k] + x[j][k] ≤ w[k]`; consequently, in every feasible solution of
the encoded model the constraint holds and the endpoints of every edge
decode to different colors (conflict-freedom of the decoded mapping). -/
theorem C1_conflict_constraint_and_conflict_freedom
    (n : Nat) (edges : List (Nat × Nat)) (w : Nat → Bool)
    (x : Nat → Nat → Bool) (i j k : Nat)
    (hmem : (i, j) ∈ edges) (hk : k < n) (hi : i < n) (hj : j < n) :
    Constr.conflict k i j ∈ modelConstraints n edges ∧
    (feasible n edges w x = true →
      bval (x i k) + bval (x j k) ≤ bval (w k) ∧
      decodeColor n x i ≠ decodeColor n x j) := by
  constructor
  · unfold modelConstraints
    exact List.mem_append.2 (Or.inr (List.mem_flatMap.2
      ⟨k, List.mem_range.2 hk, List.mem_map.2 ⟨(i, j), hmem, rfl⟩⟩))
  · intro hfeas
    exact ⟨conflict_le hfeas hk hmem, decode_ne hfeas hmem hi hj⟩

/-- Witness for C1 at the Petersen instance, edge `(0, 1)`, color `0`,
and the optimal solution reported in the script's output comment. -/
theorem C1_witness :
    Constr.conflict 0 0 1 ∈ modelConstraints 10 petersenEdges ∧
    bval (xWit 0 0) + bval (xWit 1 0) ≤ bval (wWit 0) ∧
    decodeColor 10 xWit 0 ≠ decodeColor 10 xWit 1 := by
  have h := C1_conflict_constraint_and_conflict_freedom
    10 petersenEdges wWit xWit 0 1 0 (by decide) (by omega) (by omega) (by omega)
  exact ⟨h.1, h.2 (by decide)⟩

/-- C2: the encoder adds, for every vertex `i ∈ [0, n)`, the assignment
constraint `Σ_k x[i][k] = 1`; consequently, in every feasible solution
of the encoded model every vertex is assigned exactly one color, and
the decoded mapping is total and unambiguous on that vertex. -/
theorem C2_assignment_constraint_and_exactly_one_color
    (n : Nat) (edges : List (Nat × Nat)) (w : Nat → Bool)
    (x : Nat → Nat → Bool) (i : Nat) (hi : i < n) :
    Constr.assign i ∈ modelConstraints n edges ∧
    (feasible n edges w x = true →
      ((List.range n).filter (fun k => x i k)).length = 1 ∧
      ∃ c, decodeColor n x i = some c ∧ x i c = true ∧
        ∀ k < n, x i k = true → k = c) := by
  constructor
  · unfold modelConstraints
    exact List.mem_append.2 (Or.inl (List.mem_map.2 ⟨i, List.mem_range.2 hi, rfl⟩))
  · intro hfeas
    obtain ⟨c, hc⟩ := exists_color hfeas hi
    exact ⟨assign_filter_length hfeas hi,
      c, decodeColor_eq hc, (color_mem hc).2,
      fun k hk hxk => color_unique hc hk hxk⟩

/-- Witness for C2 at the Petersen instance, vertex `2`, and the
reported optimal solution. -/
theorem C2_witness :
    Constr.assign 2 ∈ modelConstraints 10 petersenEdges ∧
    ((List.range 10).filter (fun k => xWit 2 k)).length = 1 := by
  have h := C2_assignment_constraint_and_exactly_one_color
    10 petersenEdges wWit xWit 2 (by omega)
  exact ⟨h.1, (h.2 (by decide)).1⟩

/-- C3: for the Petersen instance every optimal solution of the encoded
model has objective value 3, its decoded coloring uses exactly 3
distinct colors, adjacent vertices decode to different colors, and
every vertex carries exactly one color. -/
theorem C3_petersen_optimal_is_three
    (w : Nat → Bool) (x : Nat → Nat → Bool)
    (hfeas : feasible 10 petersenEdges w x = true)
    (hopt : ∀ (w' : Nat → Bool) (x' : Nat → Nat → Bool),
      feasible 10 petersenEdges w' x' = true →
      objective 10 w ≤ objective 10 w') :
    objective 10 w = 3 ∧ colorsUsed 10 x = 3 ∧
    (∀ e ∈ petersenEdges, decodeColor 10 x e.1 ≠ decodeColor 10 x e.2) ∧
    (∀ i < 10, ((List.range 10).filter (fun k => x i k)).length = 1) := by
  have hub : objective 10 w ≤ 3 := by
    have h1 := hopt wWit xWit (by decide)
    have h2 : objective 10 wWit = 3 := by decide
    omega
  have hlb := petersen_lower hfeas
  have hobj : objective 10 w = 3 := by omega
  refine ⟨hobj, petersen_colorsUsed hfeas hobj, ?_, ?_⟩
  · intro e he
    have he' : (e.1, e.2) ∈ petersenEdges := by simpa using he
    have hlt := petersen_vertex_lt he'
    exact decode_ne hfeas he' hlt.1 hlt.2.1
  · intro i hi
    exact assign_filter_length hfeas hi

/-- Witness for C3: the solution from the script's output comment is
feasible and optimal, and the theorem applied to it yields objective
value 3 and exactly 3 decoded colors. -/
theorem C3_witness : objective 10 wWit = 3 ∧ colorsUsed 10 xWit = 3 := by
  have h := C3_petersen_optimal_is_three wWit xWit (by decide)
    (fun w' x' hf => by
      have h3 : objective 10 wWit = 3 := by decide
      have h4 := petersen_lower hf
      omega)
  exact ⟨h.1, h.2.1⟩

/-- C4: for every valid graph (`n > 0`, edges with distinct in-range
endpoints) the encoded model is feasible — the assignment giving vertex
`i` color `i` with every color marked used satisfies all constraints —
and the number of distinct colors in any decoded mapping is at most
`n`. -/
theorem C4_always_feasible_and_upper_bound
    (n : Nat) (edges : List (Nat × Nat)) (hn : 0 < n)
    (hvalid : ∀ e ∈ edges, e.1 < n ∧ e.2 < n ∧ e.1 ≠ e.2) :
    feasible n edges (fun _ => true) (fun a k => a == k) = true ∧
    ∀ (w : Nat → Bool) (x : Nat → Nat → Bool),
      feasible n edges w x = true → colorsUsed n x ≤ n := by
  constructor
  · exact diag_feasible n edges (fun e he => (hvalid e he).2.2)
      (fun _ => true) (fun e he k hk _ => rfl)
  · intro w x _
    exact colorsUsed_le n x

/-- Witness for C4 at the triangle graph on three vertices. -/
theorem C4_witness :
    feasible 3 [(0, 1), (1, 2), (0, 2)] (fun _ => true) (fun a k => a == k) = true ∧
    colorsUsed 3 (fun a k => a == k) ≤ 3 := by
  have h := C4_always_feasible_and_upper_bound 3 [(0, 1), (1, 2), (0, 2)]
    (by omega) (by decide)
  exact ⟨h.1, h.2 (fun _ => true) (fun a k => a == k) h.1⟩

/-- C5 counterexample: for the self-loop input `n = 2`,
`edges = [(0, 0)]` — which the claim says must fail validation with
`InvalidGraphError` before any encoding — the script performs no
validation at all: model construction succeeds and returns the full
constraint list. -/
theorem C5_counterexample :
    buildModel 2 [((0 : Int), (0 : Int))] =
      Except.ok (modelConstraints 2 [(0, 0)]) := rfl

/-- C5 amended: the code performs no input validation whatsoever and
defines no `InvalidGraphError`.  Encoding succeeds exactly when `n = 0`
(every loop body is empty) or every edge endpoint is a valid Python
index into the `n`-element variable lists, i.e. lies in `[-n, n)`; in
particular non-positive `n` and self-loop edges build a model without
any error, and the only failure mode is an `IndexError` raised during
conflict-constraint construction. -/
theorem C5_amended_no_validation (n : Nat) (es : List (Int × Int)) :
    ((∃ cs, buildModel n es = Except.ok cs) ↔
      (n = 0 ∨ ∀ e ∈ es, (-(n : Int) ≤ e.1 ∧ e.1 < (n : Int)) ∧
        (-(n : Int) ≤ e.2 ∧ e.2 < (n : Int)))) ∧
    (¬(n = 0 ∨ ∀ e ∈ es, (-(n : Int) ≤ e.1 ∧ e.1 < (n : Int)) ∧
        (-(n : Int) ≤ e.2 ∧ e.2 < (n : Int))) →
      buildModel n es = Except.error PyErr.indexError) := by
  have hiff : (∃ cs, buildModel n es = Except.ok cs) ↔
      (n = 0 ∨ ∀ e ∈ es, (-(n : Int) ≤ e.1 ∧ e.1 < (n : Int)) ∧
        (-(n : Int) ≤ e.2 ∧ e.2 < (n : Int))) := by
    rw [buildModel_ok_iff]
    simp only [pyIndex_isSome_iff]
  exact ⟨hiff, fun h => buildModel_not_ok n es (fun hok => h (hiff.1 hok))⟩

/-- Witness for C5 amended: the self-loop input builds a model, the
out-of-range input fails with `IndexError`. -/
theorem C5_amended_witness :
    (∃ cs, buildModel 2 [((0 : Int), (0 : Int))] = Except.ok cs) ∧
    buildModel 2 [((0 : Int), (2 : Int))] = Except.error PyErr.indexError := by
  constructor
  · exact (C5_amended_no_validation 2 [((0 : Int), (0 : Int))]).1.2
      (Or.inr (by decide))
  · exact (C5_amended_no_validation 2 [((0 : Int), (2 : Int))]).2 (by decide)

/-- C6 counterexample: with solver status `INFEASIBLE` — which the
claim says must surface a `SolveFailedError` — the script prints
nothing and returns normally; the failure is silently swallowed. -/
theorem C6_counterexample :
    printResults Status.INFEASIBLE 0 [(0, 1)] = [] := rfl

/-- C6 amended: if the solver returns `INFEASIBLE`, `UNBOUNDED` or
`ERROR`, the script raises nothing and produces no output at all — the
`if status == OPTIMAL` branch is skipped, the failure is silently
ignored, and (vacuously) no partial result is emitted. -/
theorem C6_amended_failures_swallowed (status : Status) (o : ℚ)
    (vars : List (Nat × ℚ))
    (h : status = Status.INFEASIBLE ∨ status = Status.UNBOUNDED ∨
      status = Status.ERROR) :
    printResults status o vars = [] := by
  rcases h with rfl | rfl | rfl <;> rfl

/-- Witness for C6 amended at status `UNBOUNDED`. -/
theorem C6_amended_witness : printResults Status.UNBOUNDED 5 [(3, 1)] = [] :=
  C6_amended_failures_swallowed Status.UNBOUNDED 5 [(3, 1)] (Or.inr (Or.inl rfl))

/-- C7 counterexample: with status `FEASIBLE` — which the claim says
triggers per-vertex decoding and emission of the mapping, color count
and objective — the script prints nothing at all. -/
theorem C7_counterexample :
    printResults Status.FEASIBLE 3 [(18, 1)] = [] := rfl

/-- C7 amended: only status `OPTIMAL` produces output; the script
prints the solver objective value followed by one line per variable —
`w` and `x` variables alike, in creation order, with no per-vertex scan
— whose value is non-zero in absolute value (the threshold is
`abs(v.x) > 0`, not `0.5`).  No vertex→color mapping, distinct-color
count, or `DecodeError` exists; `FEASIBLE` behaves like the failure
statuses. -/
theorem C7_amended_print_only_on_optimal (status : Status) (o : ℚ)
    (vars : List (Nat × ℚ)) :
    (printResults status o vars ≠ [] ↔ status = Status.OPTIMAL) ∧
    (printResults Status.OPTIMAL o vars).head? = some (OutLine.cost o) ∧
    ∀ (a : Nat) (v : ℚ),
      (OutLine.varLine a v ∈ printResults Status.OPTIMAL o vars ↔
        ((a, v) ∈ vars ∧ 0 < |v|)) := by
  refine ⟨?_, rfl, ?_⟩
  · cases status <;> simp [printResults]
  · intro a v
    show OutLine.varLine a v ∈
      (if Status.OPTIMAL = Status.OPTIMAL then
        OutLine.cost o ::
          (vars.filter (fun p => decide (0 < |p.2|))).map
            (fun p => OutLine.varLine p.1 p.2)
      else []) ↔ ((a, v) ∈ vars ∧ 0 < |v|)
    rw [if_pos rfl]
    constructor
    · intro hmem
      rcases List.mem_cons.1 hmem with hmem | hmem
      · exact absurd hmem (by simp)
      · obtain ⟨p, hp, hpeq⟩ := List.mem_map.1 hmem
        obtain ⟨hpv, hppos⟩ := List.mem_filter.1 hp
        have h1 : p.1 = a := by
          have := congrArg (fun l => match l with
            | OutLine.varLine a _ => a
            | OutLine.cost _ => 0) hpeq
          simpa using this
        have h2 : p.2 = v := by
          have := congrArg (fun l => match l with
            | OutLine.varLine _ v => v
            | OutLine.cost v => v) hpeq
          simpa using this
        refine ⟨?_, by rw [← h2]; exact of_decide_eq_true hppos⟩
        have : p = (a, v) := Prod.ext h1 h2
        rwa [← this]
    · rintro ⟨hmem, hpos⟩
      exact List.mem_cons.2 (Or.inr (List.mem_map.2
        ⟨(a, v), List.mem_filter.2 ⟨hmem, decide_eq_true hpos⟩, rfl⟩))

/-- C8: a graph containing an isolated vertex admits a feasible
solution of the encoded model in which that vertex takes a color `k`
with `w[k] = 0`, and the objective value is then strictly smaller than
the number of distinct colors in the decoded mapping — the
isolated-vertex under-counting nuance is real. -/
theorem C8_isolated_vertex_undercount
    (n : Nat) (edges : List (Nat × Nat)) (v : Nat)
    (hloop : ∀ e ∈ edges, e.1 ≠ e.2) (hv : v < n)
    (hiso : ∀ e ∈ edges, e.1 ≠ v ∧ e.2 ≠ v) :
    ∃ (w : Nat → Bool) (x : Nat → Nat → Bool),
      feasible n edges w x = true ∧
      (∃ k, k < n ∧ x v k = true ∧ w k = false) ∧
      objective n w < colorsUsed n x := by
  refine ⟨fun k => edges.any (fun e => e.1 == k || e.2 == k),
    fun a k => a == k, ?_, ?_, ?_⟩
  · apply diag_feasible n edges hloop
    intro e he k _ hk
    apply List.any_eq_true.2
    refine ⟨e, he, ?_⟩
    rcases hk with hk | hk <;> simp [hk]
  · refine ⟨v, hv, by simp, ?_⟩
    cases hany : edges.any (fun e => e.1 == v || e.2 == v)
    · exact hany
    · exfalso
      obtain ⟨e, he, hee⟩ := List.any_eq_true.1 hany
      rcases Bool.or_eq_true_iff.1 hee with hee | hee
      · exact (hiso e he).1 (beq_iff_eq.1 hee)
      · exact (hiso e he).2 (beq_iff_eq.1 hee)
  · rw [colorsUsed_diag n, objective_filter]
    set wv : Nat → Bool := fun k => edges.any (fun e => e.1 == k || e.2 == k) with hwv
    have hnodup : ((List.range n).filter wv).Nodup :=
      List.Nodup.filter _ (List.nodup_range n)
    have hcardlen : ((List.range n).filter wv).toFinset.card =
        ((List.range n).filter wv).length := List.toFinset_card_of_nodup hnodup
    have hsub : ((List.range n).filter wv).toFinset ⊆ (Finset.range n).erase v := by
      intro c hc
      have hc' := List.mem_filter.1 (List.mem_toFinset.1 hc)
      refine Finset.mem_erase.2 ⟨?_, Finset.mem_range.2 (List.mem_range.1 hc'.1)⟩
      intro hcv
      subst hcv
      obtain ⟨e, he, hee⟩ := List.any_eq_true.1 hc'.2
      rcases Bool.or_eq_true_iff.1 hee with hee | hee
      · exact (hiso e he).1 (beq_iff_eq.1 hee)
      · exact (hiso e he).2 (beq_iff_eq.1 hee)
    have hcard := Finset.card_le_card hsub
    rw [Finset.card_erase_of_mem (Finset.mem_range.2 hv), Finset.card_range] at hcard
    omega

/-- Witness for C8: three vertices, one edge `(0, 1)`, isolated
vertex `2`. -/
theorem C8_witness :
    ∃ (w : Nat → Bool) (x : Nat → Nat → Bool),
      feasible 3 [(0, 1)] w x = true ∧
      (∃ k, k < 3 ∧ x 2 k = true ∧ w k = false) ∧
      objective 3 w < colorsUsed 3 x :=
  C8_isolated_vertex_undercount 3 [(0, 1)] 2 (by decide) (by omega) (by decide)

/-- C9: an input containing an in-range self-loop edge `(i, i)` makes
the encoded model infeasible — the conflict constraints
`2·x[i][k] ≤ w[k]` force `x[i][k] = 0` for every `k`, contradicting
the assignment constraint — while encoding itself raises no error when
all endpoints are in range. -/
theorem C9_selfloop_infeasible_no_encoding_error
    (n : Nat) (edges : List (Nat × Nat)) (i : Nat)
    (w : Nat → Bool) (x : Nat → Nat → Bool)
    (hi : i < n) (hmem : (i, i) ∈ edges)
    (hrange : ∀ e ∈ edges, e.1 < n ∧ e.2 < n) :
    feasible n edges w x = false ∧
    buildModel n (edges.map (fun e => ((e.1 : Int), (e.2 : Int)))) =
      Except.ok (modelConstraints n edges) := by
  constructor
  · exact selfloop_not_feasible n edges w x i hi hmem
  · rw [buildModel_eq n (edges.map (fun e => ((e.1 : Int), (e.2 : Int))))
      (by
        intro e he
        obtain ⟨e', he', rfl⟩ := List.mem_map.1 he
        have hr := hrange e' he'
        constructor <;> constructor <;> simp <;> omega)]
    have hmapid : ((edges.map (fun e => ((e.1 : Int), (e.2 : Int)))).map
        (fun e => (pyNorm n e.1, pyNorm n e.2))) = edges := by
      rw [List.map_map]
      conv_rhs => rw [← List.map_id edges]
      apply List.map_congr_left
      intro e _
      simp [Function.comp, pyNorm_natCast]
    rw [hmapid]

/-- Witness for C9: `n = 2`, edge list `[(1, 1)]`. -/
theorem C9_witness :
    feasible 2 [(1, 1)] (fun _ => true) (fun _ _ => true) = false ∧
    buildModel 2 [((1 : Int), (1 : Int))] =
      Except.ok (modelConstraints 2 [(1, 1)]) := by
  have h := C9_selfloop_infeasible_no_encoding_error 2 [(1, 1)] 1
    (fun _ => true) (fun _ _ => true) (by omega) (by decide) (by decide)
  exact ⟨h.1, h.2⟩

/-- C10 counterexample: with `n = 0` and an edge endpoint `5 ≥ n` the
conflict loop `for k in range(n)` never runs its body, so — contrary to
the claim — no `IndexError` is raised and an (empty) model is built. -/
theorem C10_counterexample :
    buildModel 0 [((5 : Int), (5 : Int))] = Except.ok [] := rfl

/-- C10 amended: provided `n > 0`, every input with an edge endpoint
`≥ n` makes conflict-constraint construction fail with `IndexError`,
whereas an input whose endpoints all lie in `[-n, n)` raises no error:
a negative endpoint `i` is silently resolved to vertex `n + i` by
Python negative indexing, yielding a well-formed model for the wrong
vertex. -/
theorem C10_amended_indexing (n : Nat) (es : List (Int × Int)) :
    (0 < n → (∃ e ∈ es, (n : Int) ≤ e.1 ∨ (n : Int) ≤ e.2) →
      buildModel n es = Except.error PyErr.indexError) ∧
    ((∀ e ∈ es, (-(n : Int) ≤ e.1 ∧ e.1 < (n : Int)) ∧
        (-(n : Int) ≤ e.2 ∧ e.2 < (n : Int))) →
      buildModel n es = Except.ok (modelConstraints n
        (es.map (fun e => (pyNorm n e.1, pyNorm n e.2))))) := by
  constructor
  · rintro hn ⟨e, he, hbad⟩
    apply buildModel_not_ok
    intro hok
    have h := buildModel_ok_iff n es |>.1 hok
    rcases h with rfl | hall
    · omega
    · have hb := hall e he
      rw [pyIndex_isSome_iff, pyIndex_isSome_iff] at hb
      rcases hbad with hbad | hbad <;> omega
  · exact buildModel_eq n es

/-- Witness for C10 amended: endpoint `5 ≥ 2` raises `IndexError`;
endpoint `-1` is silently resolved to vertex `1 = 2 + (-1)`. -/
theorem C10_amended_witness :
    buildModel 2 [((0 : Int), (5 : Int))] = Except.error PyErr.indexError ∧
    buildModel 2 [((-1 : Int), (0 : Int))] =
      Except.ok (modelConstraints 2 [(1, 0)]) := by
  constructor
  · exact (C10_amended_indexing 2 [((0 : Int), (5 : Int))]).1 (by omega)
      ⟨(0, 5), by simp, Or.inr (by omega)⟩
  · have h := (C10_amended_indexing 2 [((-1 : Int), (0 : Int))]).2 (by decide)
    have h2 : ([((-1 : Int), (0 : Int))].map
        (fun e => (pyNorm 2 e.1, pyNorm 2 e.2))) = [(1, 0)] := by decide
    rwa [h2] at h
